import Mathlib

/-!
Verification of the SDK download and extraction pipeline of cargo-msfs.

The definitions below are shallow embeddings of the functions in
src/sdk.rs of the repository: manifest handling, long file name
extraction, directory table resolution, selective cabinet extraction,
the chunked download loop and the install state store. Paths are
modelled as lists of segments, bytes as natural numbers, and fallible
operations return Except values whose error strings follow the context
messages of the source. Byte counters are modelled as Nat because the
u64 counters of the source stay far below two to the power 64 for any
download the loop can produce.
-/

namespace CargoMsfs

/-- The two simulator product lines, from the SimulatorVersion enum in main.rs. -/
inductive SimulatorVersion where
  | Msfs2020
  | Msfs2024
deriving DecidableEq

/-- One release entry of the manifest, from struct GameVersion in sdk.rs.
The downloads menu is modelled as an association list from menu title to
optional URL, and release notes as the ordered list of version strings. -/
structure GameVersion where
  downloads_menu : List (String × Option String)
  release_notes : List String
deriving DecidableEq

/-- The manifest of available SDK versions, from struct SdkManifest in sdk.rs. -/
structure SdkManifest where
  game_versions : List GameVersion
deriving DecidableEq

/-- Embeds the pure core of get_latest_sdk_release: the manifest has
already been fetched and parsed, and the function returns its first game
version or an error, as game_versions.first does in the source. -/
def get_latest_sdk_release (m : SdkManifest) : Except String GameVersion :=
  match m.game_versions.head? with
  | some g => Except.ok g
  | none => Except.error "can not find game version for SDK"

/-- Embeds get_latest_sdk_version: the last release note for Msfs2020 and
the first release note for Msfs2024, with an error when the list is empty. -/
def get_latest_sdk_version (v : SimulatorVersion) (m : SdkManifest) : Except String String :=
  match get_latest_sdk_release m with
  | Except.error e => Except.error e
  | Except.ok g =>
    if v = SimulatorVersion.Msfs2020 then
      match g.release_notes.getLast? with
      | some s => Except.ok s
      | none => Except.error "no available sdk version"
    else
      match g.release_notes.head? with
      | some s => Except.ok s
      | none => Except.error "no available sdk version"

/-- Embeds the release number selection of install_latest_sdk, which
reads release_notes.last for both product lines before writing the
version file. -/
def install_release_number (g : GameVersion) : Except String String :=
  match g.release_notes.getLast? with
  | some s => Except.ok s
  | none => Except.error "could not get latest release number"

/-- Embeds the split of a string on the bar character used by
get_long_file_name: the list of bar separated fragments of the character
list. The result is never empty. -/
def splitOnBar : List Char → List (List Char)
  | [] => [[]]
  | c :: cs =>
    if c = '|' then [] :: splitOnBar cs
    else
      match splitOnBar cs with
      | [] => [[c]]
      | p :: ps => (c :: p) :: ps

/-- Embeds get_long_file_name: the last bar separated fragment of the
string, the whole string when it holds no bar. The source returns Result
but split always yields at least one fragment, so the error branch is
unreachable and the embedding is total. -/
def get_long_file_name (s : String) : String :=
  String.mk ((splitOnBar s.data).getLastD [])

/-- One row of the MSI Directory table as selected in install_latest_sdk:
columns Directory, Directory_Parent and DefaultDir. A null parent cell is
modelled as none. -/
structure DirRow where
  directory : String
  directory_Parent : Option String
  defaultDir : String
deriving DecidableEq

/-- Embeds the row search at the top of get_directory_parent. -/
def findRow (d : String) (dirs : List DirRow) : Option DirRow :=
  dirs.find? (fun r => r.directory == d)

/-- Embeds get_directory_parent with explicit fuel: the source recursion
has no termination guard, so the embedding returns none when the fuel is
exhausted and otherwise returns the result of the source function, with
paths as segment lists and the empty list standing for the empty path. -/
def get_directory_parent : Nat → String → List DirRow → Option (Except String (List String))
  | 0, _, _ => none
  | fuel + 1, d, dirs =>
    match findRow d dirs with
    | none => some (Except.error "could not find source row")
    | some row =>
      match row.directory_Parent with
      | none => some (Except.ok [])
      | some p =>
        match get_directory_parent fuel p dirs with
        | none => none
        | some (Except.error e) => some (Except.error e)
        | some (Except.ok parent_path) =>
          some (Except.ok (parent_path ++ [get_long_file_name row.defaultDir]))

/-- Holds when the parent key recorded in the row ranks strictly below
the key of the row itself. -/
def rowDescending (rank : String → Nat) (row : DirRow) : Bool :=
  match row.directory_Parent with
  | some p => decide (rank p < rank row.directory)
  | none => true

/-- Acyclicity of the parent links of a directory table, witnessed by a
ranking function that strictly decreases from a row to its parent. -/
def AcyclicLookup (dirs : List DirRow) : Prop :=
  ∃ rank : String → Nat, ∀ row ∈ dirs, rowDescending rank row = true

/-- A synthetic Directory table for the tree root to A to B, with MSI
style short and long directory names on the inner rows. -/
def treeDirs : List DirRow :=
  [⟨"ROOT", none, "SourceDir"⟩,
   ⟨"dirA", some "ROOT", "A"⟩,
   ⟨"dirB", some "dirA", "B"⟩]

/-- A directory table with a self referencing parent link. -/
def cyclicDirs : List DirRow :=
  [⟨"X", some "X", "X"⟩]

/-- Embeds the chunked download loop of install_latest_sdk. The input
list holds the sizes returned by successive reads; a zero size stops the
loop. The cursor position after write_all is the running total pos + c,
and the source passes position plus the chunk size again to the callback,
so each emitted pair is (pos + c + c, content_length). -/
def downloadCallbacks : Nat → List Nat → Nat → List (Nat × Nat)
  | _, [], _ => []
  | pos, c :: rest, total =>
    if c = 0 then []
    else (pos + c + c, total) :: downloadCallbacks (pos + c) rest total

/-- Modelled from the spec: the progress callback receives the cumulative
number of bytes downloaded so far and the total content length, once per
non empty chunk. Stated for comparison with downloadCallbacks. -/
def downloadCallbacksClaimed : Nat → List Nat → Nat → List (Nat × Nat)
  | _, [], _ => []
  | pos, c :: rest, total =>
    if c = 0 then []
    else (pos + c, total) :: downloadCallbacksClaimed (pos + c) rest total

/-- A manifest for Msfs2024 whose release notes are ordered newest first,
as the comment in get_latest_sdk_version documents for 2024. -/
def gv2024 : GameVersion :=
  ⟨[("SDK Installer (Core)", some "sdk2024.zip")], ["2.0.0", "1.0.0"]⟩

/-- The manifest wrapping gv2024. -/
def manifest2024 : SdkManifest := ⟨[gv2024]⟩

/-- A manifest for a product line whose newest release is the last entry. -/
def manifest2020 : SdkManifest :=
  ⟨[⟨[("SDK Installer (Core)", some "sdk.msi")], ["1.0.0", "1.1.0"]⟩]⟩

/-- One file entry of a cabinet stream: its name is the file identifier
shared with the FileMap, and its data the decompressed bytes. -/
structure CabFileEntry where
  name : String
  data : List Nat
deriving DecidableEq

/-- One named stream of the normalized package: either it fails to open
as a cabinet archive or it opens as a cabinet holding file entries. -/
inductive MsiStream where
  | notCabinet
  | cabinet (entries : List CabFileEntry)
deriving DecidableEq

/-- Embeds the HashMap lookup file_map.get of install_latest_sdk, with
the file map as an association list from file identifier to resolved
path. -/
def lookupFileMap (fm : List (String × List String)) (k : String) : Option (List String) :=
  (fm.find? (fun e => e.fst == k)).map (fun e => e.snd)

/-- Embeds the starts_with test on resolved paths, on path segments. -/
def isPrefixList : List String → List String → Bool
  | [], _ => true
  | _ :: _, [] => false
  | a :: as, b :: bs => a == b && isPrefixList as bs

/-- Embeds the inner entry loop of install_latest_sdk over the entries of
one cabinet: each entry is looked up in the file map, a missing mapping
aborts with an error after the writes already performed, and a mapped
entry is written under the output directory, with the target subtree
stripped, exactly when its resolved path starts with the target subtree.
The first component collects the performed writes in order and the second
the error, if any. -/
def extractCabinet (fm : List (String × List String)) (extract_from out_directory : List String) :
    List CabFileEntry → List (List String × List Nat) × Option String
  | [] => ([], none)
  | e :: rest =>
    match lookupFileMap fm e.name with
    | none => ([], some "could not find mapped file name")
    | some entry =>
      let tail := extractCabinet fm extract_from out_directory rest
      ((if isPrefixList extract_from entry
          then [(out_directory ++ List.drop extract_from.length entry, e.data)]
          else []) ++ tail.fst,
       tail.snd)

/-- Embeds the stream loop of install_latest_sdk: streams that do not
open as cabinet archives are skipped, and each cabinet is extracted with
extractCabinet, an error aborting the remaining streams. -/
def extractStreams (fm : List (String × List String)) (extract_from out_directory : List String) :
    List (String × MsiStream) → List (List String × List Nat) × Option String
  | [] => ([], none)
  | (_, MsiStream.notCabinet) :: rest => extractStreams fm extract_from out_directory rest
  | (_, MsiStream.cabinet entries) :: rest =>
    let cab := extractCabinet fm extract_from out_directory entries
    match cab.snd with
    | some e => (cab.fst, some e)
    | none =>
      let tail := extractStreams fm extract_from out_directory rest
      (cab.fst ++ tail.fst, tail.snd)

/-- All file entries of all cabinet streams of the package, in stream
order. -/
def allCabEntries : List (String × MsiStream) → List CabFileEntry
  | [] => []
  | (_, MsiStream.notCabinet) :: rest => allCabEntries rest
  | (_, MsiStream.cabinet entries) :: rest => entries ++ allCabEntries rest

/-- Modelled from the spec: the write the Selective Extractor is claimed
to perform for one cabinet entry, namely the resolved path minus the
target subtree under the installation root when the resolved path lies
under the target subtree, and nothing otherwise. Stated for comparison
with extractStreams. -/
def specWriteFor (fm : List (String × List String)) (extract_from out_directory : List String)
    (e : CabFileEntry) : Option (List String × List Nat) :=
  match lookupFileMap fm e.name with
  | some p =>
    if isPrefixList extract_from p
      then some (out_directory ++ List.drop extract_from.length p, e.data)
      else none
  | none => none

/-- The installation root of one product line as the install state store
sees it: whether the root directory exists, the contents of the version
file when present, and the extracted SDK files. -/
structure SdkFs where
  root_exists : Bool
  version_file : Option String
  sdk_files : List (List String × List Nat)
deriving DecidableEq

/-- Embeds fs remove_dir_all on the installation root: recursive removal
fails when the target does not exist. -/
def fs_remove_dir_all (fs : SdkFs) : Except String SdkFs :=
  if fs.root_exists then Except.ok ⟨false, none, []⟩
  else Except.error "no such file or directory"

/-- Embeds remove_sdk_version: the root is removed recursively only when
it exists, so a missing root is a successful no op. -/
def remove_sdk_version (fs : SdkFs) : Except String SdkFs :=
  if fs.root_exists then fs_remove_dir_all fs else Except.ok fs

/-- Embeds the version file write of install_latest_sdk together with the
create_dir_all that precedes it in the install flow: the root directory
is created when absent and the version file is overwritten wholesale. -/
def write_version_file (fs : SdkFs) (v : String) : SdkFs :=
  { fs with root_exists := true, version_file := some v }

/-- Embeds the File open call of get_installed_sdk_version on the version
file: the contents when the file exists, an error otherwise. -/
def open_version_file (fs : SdkFs) : Except String String :=
  match fs.version_file with
  | some contents => Except.ok contents
  | none => Except.error "no such file or directory"

/-- Embeds get_installed_sdk_version: Some contents when the version file
opens, None when opening fails. -/
def get_installed_sdk_version (fs : SdkFs) : Option String :=
  match open_version_file fs with
  | Except.ok contents => some contents
  | Except.error _ => none

/-- Records a list of performed extraction writes in the installation
root, later writes shadowing earlier ones at the same path. -/
def apply_writes (fs : SdkFs) (ws : List (List String × List Nat)) : SdkFs :=
  { fs with sdk_files := fs.sdk_files ++ ws }

/-- Embeds the tail of install_latest_sdk after the file map is built:
the version file is written first, then the streams are extracted, the
writes performed before any failure landing in the root. The second
component is the extraction error, if any. -/
def install_write_and_extract (fs : SdkFs) (release_number : String)
    (fm : List (String × List String)) (extract_from : List String)
    (streams : List (String × MsiStream)) : SdkFs × Option String :=
  let fs1 := write_version_file fs release_number
  let res := extractStreams fm extract_from [] streams
  (apply_writes fs1 res.fst, res.snd)

/-- A file map holding resolved paths inside and outside the target
subtree. -/
def exFileMap : List (String × List String) :=
  [("fil1", [".", "MSFS SDK", "WASM", "a.h"]),
   ("fil2", [".", "Other", "b.txt"])]

/-- The target subtree of exFileMap. -/
def exTarget : List String := [".", "MSFS SDK"]

/-- The installation root used by the extraction examples. -/
def exOutDir : List String := ["out"]

/-- A package with one cabinet stream holding entries inside and outside
the target subtree, and one stream that is not a cabinet. -/
def exStreams : List (String × MsiStream) :=
  [("s1", MsiStream.cabinet [⟨"fil1", [1, 2]⟩, ⟨"fil2", [3]⟩]),
   ("s2", MsiStream.notCabinet)]

/-- A package with one cabinet stream holding an entry whose identifier
has no mapping in exFileMap. -/
def badStreams : List (String × MsiStream) :=
  [("s1", MsiStream.cabinet [⟨"ghost", [9]⟩])]

-- Helper lemmas about splitOnBar

/-- Splitting never yields an empty fragment list. -/
theorem splitOnBar_ne_nil (l : List Char) : splitOnBar l ≠ [] := by
  cases l with
  | nil => simp [splitOnBar]
  | cons c cs =>
    simp only [splitOnBar]
    split
    · simp
    · cases h : splitOnBar cs <;> simp

/-- Splitting a bar free list yields the singleton of the list itself. -/
theorem splitOnBar_no_bar (l : List Char) (h : '|' ∉ l) : splitOnBar l = [l] := by
  induction l with
  | nil => rfl
  | cons c cs ih =>
    simp only [List.mem_cons, not_or] at h
    have hc : ¬ c = '|' := fun hcc => h.1 hcc.symm
    simp only [splitOnBar, if_neg hc, ih h.2]

/-- Splitting a list containing a bar yields at least two fragments. -/
theorem splitOnBar_two_le (l : List Char) (h : '|' ∈ l) : 2 ≤ (splitOnBar l).length := by
  induction l with
  | nil => cases h
  | cons c cs ih =>
    by_cases hc : c = '|'
    · subst hc
      show 2 ≤ (([] : List Char) :: splitOnBar cs).length
      have h1 : splitOnBar cs ≠ [] := splitOnBar_ne_nil cs
      have h2 : 1 ≤ (splitOnBar cs).length := by
        cases hcs : splitOnBar cs with
        | nil => exact absurd hcs h1
        | cons p ps => simp
      simp only [List.length_cons]
      omega
    · have hmem : '|' ∈ cs := by
        rcases List.mem_cons.mp h with h1 | h2
        · exact absurd h1.symm hc
        · exact h2
      have hstep : splitOnBar (c :: cs)
          = match splitOnBar cs with
            | [] => [[c]]
            | p :: ps => (c :: p) :: ps := by
        simp only [splitOnBar, if_neg hc]
      cases hcs : splitOnBar cs with
      | nil => exact absurd hcs (splitOnBar_ne_nil cs)
      | cons p ps =>
        rw [hcs] at hstep
        rw [hstep]
        have := ih hmem
        rw [hcs] at this
        simpa using this

/-- The last fragment of a split of xs followed by a bar and a bar free
ys is ys itself. -/
theorem splitOnBar_last_append (xs ys : List Char) (h : '|' ∉ ys) :
    (splitOnBar (xs ++ '|' :: ys)).getLastD [] = ys := by
  induction xs with
  | nil =>
    show (([] : List Char) :: splitOnBar ys).getLastD [] = ys
    rw [splitOnBar_no_bar ys h]
    rfl
  | cons c cs ih =>
    by_cases hc : c = '|'
    · subst hc
      show (([] : List Char) :: splitOnBar (cs ++ '|' :: ys)).getLastD [] = ys
      rw [List.getLastD_cons]
      exact ih
    · have hstep : splitOnBar (c :: cs ++ '|' :: ys)
          = match splitOnBar (cs ++ '|' :: ys) with
            | [] => [[c]]
            | p :: ps => (c :: p) :: ps := by
        simp only [List.cons_append, splitOnBar, if_neg hc]
        rfl
      cases hcs : splitOnBar (cs ++ '|' :: ys) with
      | nil => exact absurd hcs (splitOnBar_ne_nil _)
      | cons p ps =>
        rw [hcs] at hstep
        have hlen : 2 ≤ (p :: ps).length := by
          rw [← hcs]
          exact splitOnBar_two_le _ (by simp)
        cases ps with
        | nil => simp at hlen
        | cons q qs =>
          have hih := ih
          rw [hcs] at hih
          rw [hstep, List.getLastD_cons, List.getLastD_cons]
          rw [List.getLastD_cons, List.getLastD_cons] at hih
          exact hih

/-- Claim C2: get_latest_sdk_version returns the last element of the
release notes of the latest entry for Msfs2020 and the first element for
Msfs2024, fails with an error when the release notes are empty, and on a
manifest whose release list is 1.0.0 then 1.1.0 under the newest is last
convention it returns 1.1.0. -/
theorem latest_version_per_product_line :
    (∀ (m : SdkManifest) (g : GameVersion), get_latest_sdk_release m = Except.ok g →
      (∀ s, g.release_notes.getLast? = some s →
        get_latest_sdk_version SimulatorVersion.Msfs2020 m = Except.ok s) ∧
      (∀ s, g.release_notes.head? = some s →
        get_latest_sdk_version SimulatorVersion.Msfs2024 m = Except.ok s) ∧
      (g.release_notes = [] →
        get_latest_sdk_version SimulatorVersion.Msfs2020 m
            = Except.error "no available sdk version" ∧
        get_latest_sdk_version SimulatorVersion.Msfs2024 m
            = Except.error "no available sdk version")) ∧
    get_latest_sdk_version SimulatorVersion.Msfs2020 manifest2020 = Except.ok "1.1.0" := by
  constructor
  · intro m g hrel
    refine ⟨?_, ?_, ?_⟩
    · intro s hs
      simp [get_latest_sdk_version, hrel, hs]
    · intro s hs
      simp [get_latest_sdk_version, hrel, hs]
    · intro hnil
      constructor <;> simp [get_latest_sdk_version, hrel, hnil]
  · rfl

/-- Witness for latest_version_per_product_line at a concrete manifest. -/
theorem latest_version_per_product_line_witness :
    get_latest_sdk_version SimulatorVersion.Msfs2020 manifest2020 = Except.ok "1.1.0" :=
  (latest_version_per_product_line.1 manifest2020
    ⟨[("SDK Installer (Core)", some "sdk.msi")], ["1.0.0", "1.1.0"]⟩ rfl).1 "1.1.0" rfl

/-- Claim C1: the claim states that install_latest_sdk persists the same
release identifier that get_latest_sdk_version returns for the product
line. The code instead always records the last element of the release
notes, which for Msfs2024, whose notes are ordered newest first, is the
oldest release rather than the newest one returned by
get_latest_sdk_version. -/
theorem install_record_diverges_for_msfs2024 :
    install_release_number gv2024 = Except.ok "1.0.0" ∧
    get_latest_sdk_version SimulatorVersion.Msfs2024 manifest2024 = Except.ok "2.0.0" ∧
    ("1.0.0" : String) ≠ "2.0.0" :=
  ⟨rfl, rfl, by decide⟩

/-- Claim C6: the claim states that each callback invocation receives the
cumulative number of bytes downloaded so far. The code passes the cursor
position taken after write_all plus the chunk size again, so a single
full chunk of 1024 bytes with content length 1024 reports 2048. -/
theorem progress_callback_overreports :
    downloadCallbacks 0 [1024] 1024 = [(2048, 1024)] ∧
    downloadCallbacksClaimed 0 [1024] 1024 = [(1024, 1024)] ∧
    downloadCallbacks 0 [1024] 1024 ≠ downloadCallbacksClaimed 0 [1024] 1024 :=
  ⟨rfl, rfl, by decide⟩

/-- Claim C8: for every input of the form short bar long the long name
extraction returns the substring after the last bar, and for every input
containing no bar it returns the input unchanged. -/
theorem long_file_name_extraction :
    (∀ short long : String, '|' ∉ long.data →
      get_long_file_name (short ++ "|" ++ long) = long) ∧
    (∀ s : String, '|' ∉ s.data → get_long_file_name s = s) := by
  constructor
  · intro short long h
    show String.mk ((splitOnBar (short ++ "|" ++ long).data).getLastD []) = long
    have hdata : (short ++ "|" ++ long).data = short.data ++ '|' :: long.data := by
      simp [String.data_append]
    rw [hdata, splitOnBar_last_append short.data long.data h]
  · intro s h
    show String.mk ((splitOnBar s.data).getLastD []) = s
    rw [splitOnBar_no_bar s.data h]
    rfl

/-- Witness for long_file_name_extraction at concrete strings. -/
theorem long_file_name_extraction_witness :
    get_long_file_name ("vacirzcc.h" ++ "|" ++ "WASM.h") = "WASM.h" ∧
    get_long_file_name "plain.h" = "plain.h" :=
  ⟨long_file_name_extraction.1 "vacirzcc.h" "WASM.h" (by decide),
   long_file_name_extraction.2 "plain.h" (by decide)⟩

/-- Claim C3: get_directory_parent resolves a directory by recursive
ascent, a row with no parent resolving to the empty path and a row with a
parent resolving to the parent path joined with the long directory name
of the row; on the synthetic table root to A to B, resolving B yields A
then B, resolving A yields A, and the root contributes no segment. -/
theorem directory_resolution :
    (∀ (dirs : List DirRow) (d : String) (row : DirRow) (fuel : Nat),
        findRow d dirs = some row → row.directory_Parent = none →
        get_directory_parent (fuel + 1) d dirs = some (Except.ok [])) ∧
    (∀ (dirs : List DirRow) (d p : String) (row : DirRow) (fuel : Nat) (q : List String),
        findRow d dirs = some row → row.directory_Parent = some p →
        get_directory_parent fuel p dirs = some (Except.ok q) →
        get_directory_parent (fuel + 1) d dirs =
          some (Except.ok (q ++ [get_long_file_name row.defaultDir]))) ∧
    get_directory_parent 3 "dirB" treeDirs = some (Except.ok ["A", "B"]) ∧
    get_directory_parent 3 "dirA" treeDirs = some (Except.ok ["A"]) ∧
    get_directory_parent 3 "ROOT" treeDirs = some (Except.ok []) := by
  refine ⟨?_, ?_, rfl, rfl, rfl⟩
  · intro dirs d row fuel hfind hroot
    simp [get_directory_parent, hfind, hroot]
  · intro dirs d p row fuel q hfind hparent hrec
    simp [get_directory_parent, hfind, hparent, hrec]

/-- Witness for directory_resolution, resolving A over the synthetic
table through both recursion branches. -/
theorem directory_resolution_witness :
    get_directory_parent 2 "dirA" treeDirs
      = some (Except.ok ([] ++ [get_long_file_name "A"])) :=
  directory_resolution.2.1 treeDirs "dirA" "ROOT" ⟨"dirA", some "ROOT", "A"⟩ 1 []
    rfl rfl
    (directory_resolution.1 treeDirs "ROOT" ⟨"ROOT", none, "SourceDir"⟩ 0 rfl rfl)

/-- Claim C9: on every directory table whose parent links are acyclic the
resolution terminates on every directory key, while the recursion has no
cycle guard of its own: on a table with a self referencing row it runs
out of any amount of fuel. -/
theorem resolution_terminates_on_acyclic :
    (∀ dirs : List DirRow, AcyclicLookup dirs → ∀ d : String,
        ∃ fuel r, get_directory_parent fuel d dirs = some r) ∧
    (∀ fuel : Nat, get_directory_parent fuel "X" cyclicDirs = none) := by
  constructor
  · rintro dirs ⟨rank, hrank⟩ d
    suffices h : ∀ (n : Nat) (d : String), rank d < n →
        ∃ r, get_directory_parent n d dirs = some r by
      obtain ⟨r, hr⟩ := h (rank d + 1) d (Nat.lt_succ_self _)
      exact ⟨rank d + 1, r, hr⟩
    intro n
    induction n with
    | zero => intro d hd; exact absurd hd (Nat.not_lt_zero _)
    | succ n ih =>
      intro d hd
      cases hfind : findRow d dirs with
      | none =>
        exact ⟨Except.error "could not find source row",
          by simp [get_directory_parent, hfind]⟩
      | some row =>
        cases hp : row.directory_Parent with
        | none => exact ⟨Except.ok [], by simp [get_directory_parent, hfind, hp]⟩
        | some p =>
          have hmem : row ∈ dirs := List.mem_of_find?_eq_some hfind
          have heq : row.directory = d := by
            have hpred := List.find?_some hfind
            exact eq_of_beq hpred
          have hdesc := hrank row hmem
          rw [rowDescending, hp] at hdesc
          have hlt : rank p < rank row.directory := of_decide_eq_true hdesc
          rw [heq] at hlt
          have hpn : rank p < n := Nat.lt_of_lt_of_le hlt (Nat.lt_succ_iff.mp hd)
          obtain ⟨r, hr⟩ := ih p hpn
          cases r with
          | error e =>
            exact ⟨Except.error e, by simp [get_directory_parent, hfind, hp, hr]⟩
          | ok q =>
            exact ⟨Except.ok (q ++ [get_long_file_name row.defaultDir]),
              by simp [get_directory_parent, hfind, hp, hr]⟩
  · intro fuel
    induction fuel with
    | zero => rfl
    | succ n ih =>
      have hstep : get_directory_parent (n + 1) "X" cyclicDirs
          = match get_directory_parent n "X" cyclicDirs with
            | none => none
            | some (Except.error e) => some (Except.error e)
            | some (Except.ok q) =>
              some (Except.ok (q ++ [get_long_file_name "X"])) := rfl
      rw [hstep, ih]

/-- Witness for resolution_terminates_on_acyclic on the synthetic tree
table, ranked by distance from the root. -/
theorem resolution_terminates_witness :
    ∃ fuel r, get_directory_parent fuel "dirB" treeDirs = some r :=
  resolution_terminates_on_acyclic.1 treeDirs
    ⟨fun d => if d = "dirB" then 2 else if d = "dirA" then 1 else 0, by decide⟩ "dirB"

-- Helper lemmas about the extraction loop

/-- With every entry mapped, one cabinet produces exactly the writes
selected by the target subtree, and no error. -/
theorem extractCabinet_all_mapped (fm : List (String × List String))
    (ef od : List String) (entries : List CabFileEntry)
    (h : ∀ e ∈ entries, (lookupFileMap fm e.name).isSome = true) :
    extractCabinet fm ef od entries = (entries.filterMap (specWriteFor fm ef od), none) := by
  induction entries with
  | nil => rfl
  | cons e rest ih =>
    have he := h e (List.mem_cons_self e rest)
    cases hl : lookupFileMap fm e.name with
    | none => rw [hl] at he; simp at he
    | some p =>
      have hrest := ih (fun x hx => h x (List.mem_cons_of_mem _ hx))
      simp only [extractCabinet, hl, hrest, List.filterMap_cons, specWriteFor]
      by_cases hp : isPrefixList ef p = true
      · simp [hp]
      · simp [hp]

/-- A cabinet holding an entry with no mapping reports an error. -/
theorem extractCabinet_missing (fm : List (String × List String))
    (ef od : List String) (entries : List CabFileEntry)
    (h : ∃ e ∈ entries, lookupFileMap fm e.name = none) :
    (extractCabinet fm ef od entries).snd.isSome = true := by
  induction entries with
  | nil => simp at h
  | cons e rest ih =>
    obtain ⟨x, hx, hnone⟩ := h
    cases hl : lookupFileMap fm e.name with
    | none => simp [extractCabinet, hl]
    | some p =>
      rcases List.mem_cons.mp hx with hhead | htail
      · subst hhead; rw [hl] at hnone; cases hnone
      · simp only [extractCabinet, hl]
        exact ih ⟨x, htail, hnone⟩

/-- Claim C4: with every cabinet entry mapped, the extraction loop writes
exactly the files whose resolved path starts with the target subtree,
each to the installation root joined with the resolved path stripped of
the target subtree, and performs no write for files outside it. -/
theorem extractor_selects_target_subtree (fm : List (String × List String))
    (ef od : List String) (streams : List (String × MsiStream))
    (h : ∀ e ∈ allCabEntries streams, (lookupFileMap fm e.name).isSome = true) :
    extractStreams fm ef od streams
      = ((allCabEntries streams).filterMap (specWriteFor fm ef od), none) := by
  induction streams with
  | nil => rfl
  | cons s rest ih =>
    obtain ⟨nm, str⟩ := s
    cases str with
    | notCabinet =>
      have hall : ∀ e ∈ allCabEntries rest, (lookupFileMap fm e.name).isSome = true := by
        intro e he
        exact h e (by simpa [allCabEntries] using he)
      simpa [extractStreams, allCabEntries] using ih hall
    | cabinet entries =>
      have hsplit : ∀ e ∈ entries ++ allCabEntries rest,
          (lookupFileMap fm e.name).isSome = true := by
        intro e he
        exact h e (by simpa [allCabEntries] using he)
      have hcab := extractCabinet_all_mapped fm ef od entries
        (fun e he => hsplit e (List.mem_append_left _ he))
      have hrest := ih (fun e he => hsplit e (List.mem_append_right _ he))
      simp [extractStreams, allCabEntries, hcab, hrest, List.filterMap_append]

/-- Witness for extractor_selects_target_subtree on a package holding one
file inside and one outside the target subtree plus a non cabinet
stream. -/
theorem extractor_selects_target_subtree_witness :
    extractStreams exFileMap exTarget exOutDir exStreams
      = ((allCabEntries exStreams).filterMap (specWriteFor exFileMap exTarget exOutDir), none) :=
  extractor_selects_target_subtree exFileMap exTarget exOutDir exStreams (by decide)

/-- Claim C5: a stream that does not open as a cabinet is skipped without
error, and a cabinet entry whose identifier has no mapping in the file
map makes the extraction fail, whether or not its path lies under the
target subtree. -/
theorem missing_mapping_fails_extraction :
    (∀ (fm : List (String × List String)) (ef od : List String) (nm : String)
        (rest : List (String × MsiStream)),
        extractStreams fm ef od ((nm, MsiStream.notCabinet) :: rest)
          = extractStreams fm ef od rest) ∧
    (∀ (fm : List (String × List String)) (ef od : List String)
        (streams : List (String × MsiStream)),
        (∃ e ∈ allCabEntries streams, lookupFileMap fm e.name = none) →
        (extractStreams fm ef od streams).snd.isSome = true) := by
  constructor
  · intro fm ef od nm rest
    rfl
  · intro fm ef od streams h
    induction streams with
    | nil => simp [allCabEntries] at h
    | cons s rest ih =>
      obtain ⟨nm, str⟩ := s
      cases str with
      | notCabinet =>
        exact ih (by simpa [allCabEntries] using h)
      | cabinet entries =>
        obtain ⟨x, hx, hnone⟩ := h
        rcases List.mem_append.mp (by simpa [allCabEntries] using hx) with hin | hrest
        · have hcab := extractCabinet_missing fm ef od entries ⟨x, hin, hnone⟩
          cases hsnd : (extractCabinet fm ef od entries).snd with
          | none => rw [hsnd] at hcab; simp at hcab
          | some e => simp [extractStreams, hsnd]
        · cases hsnd : (extractCabinet fm ef od entries).snd with
          | none =>
            simp only [extractStreams, hsnd]
            exact ih ⟨x, hrest, hnone⟩
          | some e => simp [extractStreams, hsnd]

/-- Witness for missing_mapping_fails_extraction on a package whose only
cabinet entry is unmapped. -/
theorem missing_mapping_fails_extraction_witness :
    (extractStreams exFileMap exTarget exOutDir badStreams).snd.isSome = true :=
  missing_mapping_fails_extraction.2 exFileMap exTarget exOutDir badStreams (by decide)

/-- Claim C7: clearing a non existent installation root succeeds without
error, clearing then writing a release identifier then reading returns
exactly that identifier, and reading returns none when the version file
is absent. -/
theorem install_state_store_roundtrip :
    (∀ fs : SdkFs, fs.root_exists = false → remove_sdk_version fs = Except.ok fs) ∧
    (∀ (fs fs2 : SdkFs) (v : String), remove_sdk_version fs = Except.ok fs2 →
        get_installed_sdk_version (write_version_file fs2 v) = some v) ∧
    (∀ fs : SdkFs, fs.version_file = none → get_installed_sdk_version fs = none) := by
  refine ⟨?_, ?_, ?_⟩
  · intro fs h
    simp [remove_sdk_version, h]
  · intro fs fs2 v _
    rfl
  · intro fs h
    simp [get_installed_sdk_version, open_version_file, h]

/-- Witness for install_state_store_roundtrip on a concrete root. -/
theorem install_state_store_roundtrip_witness :
    remove_sdk_version ⟨false, none, []⟩ = Except.ok ⟨false, none, []⟩ ∧
    get_installed_sdk_version (write_version_file ⟨false, none, []⟩ "1.1.0") = some "1.1.0" ∧
    get_installed_sdk_version ⟨true, none, []⟩ = none :=
  ⟨install_state_store_roundtrip.1 ⟨false, none, []⟩ rfl,
   install_state_store_roundtrip.2.1 ⟨false, none, []⟩ ⟨false, none, []⟩ "1.1.0"
     (install_state_store_roundtrip.1 ⟨false, none, []⟩ rfl),
   install_state_store_roundtrip.2.2 ⟨true, none, []⟩ rfl⟩

/-- Claim C10: install_latest_sdk writes the version file before
extracting any SDK file, so when the extraction fails the failure is
reported while the root still holds the version file and
get_installed_sdk_version reports the new release identifier as
installed. -/
theorem version_file_written_before_extraction (fs : SdkFs) (release : String)
    (fm : List (String × List String)) (ef : List String)
    (streams : List (String × MsiStream)) (e : String)
    (h : (extractStreams fm ef [] streams).snd = some e) :
    (install_write_and_extract fs release fm ef streams).snd = some e ∧
    get_installed_sdk_version (install_write_and_extract fs release fm ef streams).fst
      = some release := by
  constructor
  · simp [install_write_and_extract, h]
  · rfl

/-- Witness for version_file_written_before_extraction on a failing
extraction whose only cabinet entry is unmapped. -/
theorem version_file_written_before_extraction_witness :
    (install_write_and_extract ⟨false, none, []⟩ "1.2.3" exFileMap exTarget badStreams).snd
        = some "could not find mapped file name" ∧
    get_installed_sdk_version
        (install_write_and_extract ⟨false, none, []⟩ "1.2.3" exFileMap exTarget badStreams).fst
      = some "1.2.3" :=
  version_file_written_before_extraction ⟨false, none, []⟩ "1.2.3" exFileMap exTarget
    badStreams "could not find mapped file name" rfl

end CargoMsfs
